import Mathlib

/-!
Shallow embedding of `spotify_india_analysis.py` and proofs of the spec's
claims about it. The remote Spotify API, reached through the `spotipy`
client handle `sp`, is modelled as a record of response oracles
(`SpClient`); every pure computation of the script (chunking, the batched
feature fetch with its error handling, the search-response destructuring,
pagination, the pandas left merge, the driver's branching) is translated
into an executable Lean function over that record.
-/

set_option autoImplicit false

namespace SpotifyIndiaAnalysis

/-- An artist object as returned by the search endpoint; the script reads
its `id` and `name` fields (`artist['id']`, `artist['name']`). -/
structure Artist where
  id : String
  name : String
deriving DecidableEq

/-- An album object; the script reads `t['album']['name']`. -/
structure Album where
  name : String
deriving DecidableEq

/-- A track object from the top-tracks endpoint. Fields read with `[...]`
in Python (raising if absent) are plain fields; fields read with `.get`
(`popularity`, `duration_ms`) are `Option`s. -/
structure Track where
  name : String
  id : String
  artists : List Artist
  album : Album
  popularity : Option Nat
  duration_ms : Option Nat
deriving DecidableEq

/-- An audio-feature record returned by `sp.audio_features`. The script
never computes with the numeric feature values, only joins and plots
them, so they are modelled as opaque integers; `id` is the track id the
record is keyed by. `tempo` and `danceability` are the two fields the
plot reads. -/
structure FeatRow where
  id : String
  tempo : Int
  danceability : Int
deriving DecidableEq

/-- The `"artists"` sub-object of a search response: `.get("items", [])`
means `items` may be absent. -/
structure ArtistsObj where
  items : Option (List Artist)
deriving DecidableEq

/-- A search response: `res.get("artists", {})` means the `artists`
sub-object may be absent. -/
structure SearchResponse where
  artists : Option ArtistsObj
deriving DecidableEq

/-- A top-tracks response: the script reads `top.get("tracks", [])`. -/
structure TopResponse where
  tracks : Option (List Track)
deriving DecidableEq

/-- Outcome of one `sp.audio_features(batch)` call: a successful list of
feature records, a raised `spotipy.SpotifyException` (the only exception
the script catches), or any other raised exception. -/
inductive ApiOutcome where
  | ok (feats : List FeatRow)
  | spotifyExc
  | otherExc
deriving DecidableEq

/-- The authenticated client handle `sp`, modelled as a record of
response oracles, one per endpoint the script calls. -/
structure SpClient where
  search : String → SearchResponse
  artist_top_tracks : String → String → TopResponse
  audio_features : List String → ApiOutcome

/-- Observable events of a run: one constructor per remote call the
script issues, plus the `time.sleep(0.1)` pause (milliseconds). -/
inductive Ev where
  | searchCall (q : String)
  | topTracksCall (artistId market : String)
  | featuresCall (batch : List String)
  | sleepMs (ms : Nat)
deriving DecidableEq

/-- True exactly on `featuresCall` events. -/
def Ev.isFeaturesCall : Ev → Bool
  | .featuresCall _ => true
  | _ => false

/-- True exactly on `sleepMs` events. -/
def Ev.isSleep : Ev → Bool
  | .sleepMs _ => true
  | _ => false

/-- Result of `safe_audio_features`: the accumulated list (Python returns
`all_feats`), the failure signal (Python returns `None` after catching
`SpotifyException`), or an uncaught exception propagating to the caller. -/
inductive FetchResult where
  | success (feats : List FeatRow)
  | failure
  | raised
deriving DecidableEq

/-- The iterations of `for i in range(0, len(lst), n)` in `chunked`,
counted down: each iteration yields the slice `lst[i:i+n]`, which is the
first `n` elements of what remains after the previous slices. -/
def chunkedGo {α : Type} (n : Nat) : List α → Nat → List (List α)
  | _, 0 => []
  | l, k + 1 => l.take n :: chunkedGo n (l.drop n) k

/-- `chunked lst n`: successive `n`-sized slices of `lst`, mirroring the
Python generator `for i in range(0, len(lst), n): yield lst[i:i+n]`.
`range(0, L, n)` performs `⌈L/n⌉ = (L + n - 1) / n` iterations and the
`i`-th yields `lst[i*n:(i+1)*n]`; the last slice may be shorter. `n = 0`
raises in Python and is never used; here it yields nothing. -/
def chunked {α : Type} (lst : List α) (n : Nat) : List (List α) :=
  chunkedGo n lst ((lst.length + n - 1) / n)

/-- The `for batch in chunked(track_ids, 100)` loop body of
`safe_audio_features`: try the request; on success extend `all_feats`
and `time.sleep(0.1)` before the next iteration; on
`spotipy.SpotifyException` print and return `None`; any other exception
propagates. The first component is the event trace, the second the
result. -/
def safe_audio_features_loop (api : List String → ApiOutcome) :
    List (List String) → List FeatRow → List Ev × FetchResult
  | [], all_feats => ([], .success all_feats)
  | batch :: rest, all_feats =>
    match api batch with
    | .ok feats =>
      let r := safe_audio_features_loop api rest (all_feats ++ feats)
      (Ev.featuresCall batch :: Ev.sleepMs 100 :: r.1, r.2)
    | .spotifyExc => ([Ev.featuresCall batch], .failure)
    | .otherExc => ([Ev.featuresCall batch], .raised)

/-- `safe_audio_features(sp, track_ids)`: request audio features in
batches of 100 (the API ceiling), returning the event trace together
with the result. -/
def safe_audio_features (sp : SpClient) (track_ids : List String) :
    List Ev × FetchResult :=
  safe_audio_features_loop sp.audio_features (chunked track_ids 100) []

/-- `search_artist(sp, artist_name)`: issue one type-scoped search with
the query `f"artist:{artist_name}"`, destructure
`res.get("artists", {}).get("items", [])`, and return `items[0]` or
`None` when the list is empty. Total by construction: absent keys fall
back to their `.get` defaults instead of raising. -/
def search_artist (sp : SpClient) (artist_name : String) : Option Artist :=
  let res := sp.search ("artist:" ++ artist_name)
  let items := (res.artists.getD { items := none }).items.getD []
  match items with
  | [] => none
  | a :: _ => some a

/-- `artist_top_tracks_in_market(sp, artist_id, market)`: one top-tracks
call, reading `top.get("tracks", [])`. -/
def artist_top_tracks_in_market (sp : SpClient) (artist_id : String)
    (market : String) : List Track :=
  (sp.artist_top_tracks artist_id market).tracks.getD []

/-- One page of a paginated playlist response: its `items` list and the
optional `next`-page cursor (`results.get('next')`), over an abstract
item type `I`. -/
structure Page (I : Type) where
  items : List I
  next : Option String
deriving DecidableEq

/-- The `while results.get('next')` loop of `get_playlist_tracks`:
follow the cursor with `sp.next`, extend `tracks` with the new page's
items, repeat. `fuel` bounds the number of cursor follows so the model
is total; any fuel at least the chain length gives the run the Python
loop performs on a finite page chain. -/
def get_playlist_tracks_loop {I : Type} (nextFn : String → Page I) :
    Nat → Page I → List I → List I
  | 0, _, tracks => tracks
  | fuel + 1, results, tracks =>
    match results.next with
    | none => tracks
    | some c =>
      let results2 := nextFn c
      get_playlist_tracks_loop nextFn fuel results2 (tracks ++ results2.items)

/-- `get_playlist_tracks(sp, playlist_id)`: start from the first page
returned by `sp.playlist_items` (here passed directly as `firstPage`),
take its items, then follow `next` cursors until none remains. -/
def get_playlist_tracks {I : Type} (firstPage : Page I)
    (nextFn : String → Page I) (fuel : Nat) : List I :=
  get_playlist_tracks_loop nextFn fuel firstPage firstPage.items

/-- The finite page chains the spec's pagination claim quantifies over:
`PageChain nextFn p ps` says `ps` lists the pages reachable from `p`,
`p` first, each page but the last carrying a cursor that `nextFn` maps
to the next page, and the last page carrying none. -/
inductive PageChain {I : Type} (nextFn : String → Page I) :
    Page I → List (Page I) → Prop where
  | last (p : Page I) : p.next = none → PageChain nextFn p [p]
  | step (p : Page I) (c : String) (rest : List (Page I)) :
      p.next = some c → PageChain nextFn (nextFn c) rest →
      PageChain nextFn p (p :: rest)

/-- One metadata row of `df_meta`, built per top track in
`analyze_artist`: `artists` is `", ".join(a['name'] for a in t['artists'])`. -/
structure MetaRow where
  track_name : String
  track_id : String
  artists : String
  album : String
  popularity : Option Nat
  duration_ms : Option Nat
deriving DecidableEq

/-- The dict `analyze_artist` appends to `tracks_meta` for one track. -/
def trackToMeta (t : Track) : MetaRow :=
  { track_name := t.name
    track_id := t.id
    artists := String.intercalate ", " (t.artists.map Artist.name)
    album := t.album.name
    popularity := t.popularity
    duration_ms := t.duration_ms }

/-- The pandas left merge
`df_meta.merge(df_feats, left_on=mkey, right_on=fkey, how='left')`:
every left row is kept in order; a left row pairs with each matching
right row in right order, and with `none` (null feature fields) when no
right row matches. Duplicated match keys on the right duplicate the left
row, as pandas does. -/
def leftMerge {K M F : Type} [DecidableEq K] (mkey : M → K) (fkey : F → K)
    (meta : List M) (feats : List F) : List (M × Option F) :=
  meta.flatMap fun m =>
    match feats.filter (fun f => fkey f = mkey m) with
    | [] => [(m, none)]
    | fs => fs.map fun f => (m, some f)

/-- The merge `analyze_artist` performs:
`df_meta.merge(df_feats, left_on='track_id', right_on='id', how='left')`. -/
def assemble (meta : List MetaRow) (feats : List FeatRow) :
    List (MetaRow × Option FeatRow) :=
  leftMerge MetaRow.track_id FeatRow.id meta feats

/-- What `analyze_artist` hands back: `None` (artist not found or no top
tracks), the metadata-only frame `df_meta` (feature fetch returned
`None`), the merged frame, or an exception propagating out of the
feature fetch. -/
inductive AnalyzeResult where
  | noData
  | metaOnly (df : List MetaRow)
  | merged (df : List (MetaRow × Option FeatRow))
  | raised
deriving DecidableEq

/-- `analyze_artist(artist_name, market)`: resolve the artist, fetch top
tracks, build `df_meta` and `track_ids`, fetch features best-effort,
and either fall back to `df_meta` or merge. Returns the trace of remote
calls alongside the result. -/
def analyze_artist (sp : SpClient) (artist_name : String) (market : String) :
    List Ev × AnalyzeResult :=
  match search_artist sp artist_name with
  | none => ([Ev.searchCall ("artist:" ++ artist_name)], .noData)
  | some artist =>
    let top_tracks := artist_top_tracks_in_market sp artist.id market
    let calls := [Ev.searchCall ("artist:" ++ artist_name),
                  Ev.topTracksCall artist.id market]
    if top_tracks.isEmpty then (calls, .noData)
    else
      let tracks_meta := top_tracks.map trackToMeta
      let track_ids := top_tracks.map Track.id
      let fr := safe_audio_features sp track_ids
      match fr.2 with
      | .failure => (calls ++ fr.1, .metaOnly tracks_meta)
      | .raised => (calls ++ fr.1, .raised)
      | .success feats => (calls ++ fr.1, .merged (assemble tracks_meta feats))

/-- Outcome of the `__main__` block. `raise SystemExit("No data
returned.")` terminates the process with status 1 and the message on
stderr, hence `exitError 1`; `plotted` is the `fig.show()` branch;
`noFeaturesMsg` is the metadata-only console message; `raisedExc` is an
exception escaping `analyze_artist`. -/
inductive MainOutcome where
  | exitError (code : Nat) (msg : String)
  | plotted
  | noFeaturesMsg
  | raisedExc
deriving DecidableEq

/-- The `__main__` block downstream of `analyze_artist`: exit on `None`,
otherwise plot exactly when the frame has a `danceability` column —
which the merged frame has (its feature side carries the field) and the
metadata-only frame does not. -/
def main_run : AnalyzeResult → MainOutcome
  | .noData => .exitError 1 "No data returned."
  | .raised => .raisedExc
  | .metaOnly _ => .noFeaturesMsg
  | .merged _ => .plotted

/-! ### Lemmas about `chunked` -/

/-- Chunking the empty list yields no chunks. -/
theorem chunked_nil {α : Type} (n : Nat) : chunked ([] : List α) n = [] := by
  unfold chunked
  have h : (List.length ([] : List α) + n - 1) / n = 0 := by
    cases n with
    | zero => simp
    | succ m => simp [Nat.div_eq_of_lt]
  rw [h]
  rfl

/-- With slice width `0` (never used; Python raises) no chunks are
yielded. -/
theorem chunked_zero {α : Type} (lst : List α) : chunked lst 0 = [] := by
  unfold chunked
  rw [Nat.div_zero]
  rfl

/-- Unfolding `chunked` one step on a nonempty list: the first `n`
elements form the first chunk and the rest is chunked likewise. -/
theorem chunked_cons {α : Type} {lst : List α} {n : Nat} (h : lst ≠ [])
    (hn : n ≠ 0) : chunked lst n = lst.take n :: chunked (lst.drop n) n := by
  have hpos : 0 < n := Nat.pos_of_ne_zero hn
  have key : ∀ m : Nat, (m + 1 + n - 1) / n = (m + 1 - n + n - 1) / n + 1 := by
    intro m
    rcases le_or_lt n (m + 1) with hle | hlt
    · have e1 : m + 1 + n - 1 = m + n := by omega
      have e2 : m + 1 - n + n - 1 = m := by omega
      rw [e1, e2, Nat.add_div_right _ hpos]
    · have e1 : m + 1 + n - 1 = m + n := by omega
      have e2 : m + 1 - n + n - 1 = n - 1 := by omega
      rw [e1, e2, Nat.add_div_right _ hpos, Nat.div_eq_of_lt (by omega),
        Nat.div_eq_of_lt (by omega)]
  obtain ⟨m, hm⟩ : ∃ m, lst.length = m + 1 := by
    have : 0 < lst.length := List.length_pos.mpr h
    exact ⟨lst.length - 1, by omega⟩
  unfold chunked
  rw [List.length_drop, hm, key m]
  rfl

/-- A `chunkedGo` run yields exactly the precomputed number of chunks. -/
theorem chunkedGo_length {α : Type} (n : Nat) (l : List α) (k : Nat) :
    (chunkedGo n l k).length = k := by
  induction k generalizing l with
  | zero => rfl
  | succ k IH => simp [chunkedGo, IH]

/-- `chunked` yields `⌈L/n⌉`, i.e. `(L + n - 1) / n`, chunks. -/
theorem length_chunked {α : Type} (lst : List α) (n : Nat) :
    (chunked lst n).length = (lst.length + n - 1) / n :=
  chunkedGo_length n lst _

/-- The chunks concatenate back to the original list: `chunked` is a
partition into contiguous groups in the original order. -/
theorem chunked_flatten {α : Type} (n : Nat) (hn : n ≠ 0) (lst : List α) :
    (chunked lst n).flatten = lst := by
  rcases lst with _ | ⟨a, l⟩
  · rw [chunked_nil]
    rfl
  · rw [chunked_cons (by simp) hn, List.flatten_cons,
      chunked_flatten n hn ((a :: l).drop n), List.take_append_drop]
termination_by lst.length
decreasing_by
  have : 0 < n := Nat.pos_of_ne_zero hn
  simp only [List.length_drop, List.length_cons]
  omega

/-- Every chunk a `chunkedGo` run yields has length at most `n`. -/
theorem chunkedGo_length_le {α : Type} (n : Nat) (l : List α) (k : Nat) :
    ∀ c ∈ chunkedGo n l k, c.length ≤ n := by
  induction k generalizing l with
  | zero =>
    intro c hc
    simp [chunkedGo] at hc
  | succ k IH =>
    intro c hc
    simp only [chunkedGo] at hc
    rcases List.mem_cons.mp hc with hc | hc
    · exact hc ▸ List.length_take_le n l
    · exact IH (l.drop n) c hc

/-- Every chunk has length at most `n`. -/
theorem chunked_length_le {α : Type} (n : Nat) (lst : List α) :
    ∀ c ∈ chunked lst n, c.length ≤ n :=
  chunkedGo_length_le n lst _

/-! ### Lemmas about the batching loop -/

/-- When every batch in `bs` succeeds, the loop's trace is one features
request followed by one 100ms sleep per batch, in batch order — in
particular the sleep also follows the final batch. -/
theorem safe_audio_features_loop_ok_trace (api : List String → ApiOutcome)
    (bs : List (List String)) (h : ∀ b ∈ bs, ∃ l, api b = .ok l)
    (acc : List FeatRow) :
    (safe_audio_features_loop api bs acc).1
      = bs.flatMap (fun b => [Ev.featuresCall b, Ev.sleepMs 100]) := by
  induction bs generalizing acc with
  | nil => rfl
  | cons b rest IH =>
    obtain ⟨l, hl⟩ := h b (List.mem_cons_self _ _)
    simp only [safe_audio_features_loop, hl, List.flatMap_cons]
    rw [IH (fun c hc => h c (List.mem_cons_of_mem _ hc)) (acc ++ l)]
    rfl

/-- When every batch responds with one record per requested id, in
request order, the loop succeeds with the accumulator extended by the
records of all batch ids in order. -/
theorem safe_audio_features_loop_ok_result (featOf : String → FeatRow)
    (api : List String → ApiOutcome) (bs : List (List String))
    (h : ∀ b ∈ bs, api b = .ok (b.map featOf)) (acc : List FeatRow) :
    (safe_audio_features_loop api bs acc).2
      = .success (acc ++ bs.flatten.map featOf) := by
  induction bs generalizing acc with
  | nil => simp [safe_audio_features_loop]
  | cons b rest IH =>
    have hb := h b (List.mem_cons_self _ _)
    simp only [safe_audio_features_loop, hb]
    rw [IH (fun c hc => h c (List.mem_cons_of_mem _ hc)) (acc ++ b.map featOf)]
    simp [List.flatten_cons]

/-- If the batches before `b` all succeed and `b`'s request raises the
service exception, the loop returns the failure signal. -/
theorem safe_audio_features_loop_service_error (api : List String → ApiOutcome)
    (pre : List (List String)) (b : List String) (post : List (List String))
    (hpre : ∀ c ∈ pre, ∃ l, api c = .ok l) (hb : api b = .spotifyExc)
    (acc : List FeatRow) :
    (safe_audio_features_loop api (pre ++ b :: post) acc).2 = .failure := by
  induction pre generalizing acc with
  | nil => simp only [List.nil_append, safe_audio_features_loop, hb]
  | cons c pre' IH =>
    obtain ⟨l, hl⟩ := hpre c (List.mem_cons_self _ _)
    simp only [List.cons_append, safe_audio_features_loop, hl]
    exact IH (fun d hd => hpre d (List.mem_cons_of_mem _ hd)) (acc ++ l)

/-- If the batches before `b` all succeed and `b`'s request raises a
non-service exception, the loop propagates it. -/
theorem safe_audio_features_loop_other_error (api : List String → ApiOutcome)
    (pre : List (List String)) (b : List String) (post : List (List String))
    (hpre : ∀ c ∈ pre, ∃ l, api c = .ok l) (hb : api b = .otherExc)
    (acc : List FeatRow) :
    (safe_audio_features_loop api (pre ++ b :: post) acc).2 = .raised := by
  induction pre generalizing acc with
  | nil => simp only [List.nil_append, safe_audio_features_loop, hb]
  | cons c pre' IH =>
    obtain ⟨l, hl⟩ := hpre c (List.mem_cons_self _ _)
    simp only [List.cons_append, safe_audio_features_loop, hl]
    exact IH (fun d hd => hpre d (List.mem_cons_of_mem _ hd)) (acc ++ l)

/-! ### Lemmas about pagination -/

/-- A page chain starts with its starting page. -/
theorem pageChain_head {I : Type} {nextFn : String → Page I} {p : Page I}
    {ps : List (Page I)} (h : PageChain nextFn p ps) : ∃ t, ps = p :: t := by
  cases h with
  | last _ _ => exact ⟨[], rfl⟩
  | step _ _ rest _ _ => exact ⟨rest, rfl⟩

/-- A page chain is nonempty. -/
theorem pageChain_length_pos {I : Type} {nextFn : String → Page I}
    {p : Page I} {ps : List (Page I)} (h : PageChain nextFn p ps) :
    0 < ps.length := by
  obtain ⟨t, ht⟩ := pageChain_head h
  simp [ht]

/-- On a page chain, the pagination loop appends the items of every page
after the starting one, given fuel for the whole chain. -/
theorem get_playlist_tracks_loop_chain {I : Type} (nextFn : String → Page I)
    {p : Page I} {ps : List (Page I)} (h : PageChain nextFn p ps) :
    ∀ fuel acc, ps.length ≤ fuel + 1 →
      get_playlist_tracks_loop nextFn fuel p acc
        = acc ++ ((ps.drop 1).map Page.items).flatten := by
  induction h with
  | last p hp =>
    intro fuel acc _
    cases fuel with
    | zero => simp [get_playlist_tracks_loop]
    | succ f => simp [get_playlist_tracks_loop, hp]
  | step p c rest hp hrest IH =>
    intro fuel acc hfuel
    have hlen : 0 < rest.length := pageChain_length_pos hrest
    cases fuel with
    | zero =>
      simp only [List.length_cons] at hfuel
      omega
    | succ f =>
      simp only [get_playlist_tracks_loop, hp]
      rw [IH f (acc ++ (nextFn c).items)
        (by simp only [List.length_cons] at hfuel; omega)]
      obtain ⟨t, ht⟩ := pageChain_head hrest
      subst ht
      simp

/-! ### Lemmas about the left merge -/

/-- When the right-side keys are pairwise distinct, filtering by one key
yields at most one record: exactly the one `find?` locates. -/
theorem filter_key_eq_find_toList {K F : Type} [DecidableEq K] (fkey : F → K)
    (k : K) (feats : List F) (hnd : (feats.map fkey).Nodup) :
    feats.filter (fun f => fkey f = k)
      = (feats.find? (fun f => fkey f = k)).toList := by
  induction feats with
  | nil => rfl
  | cons f fs IH =>
    rw [List.map_cons, List.nodup_cons] at hnd
    obtain ⟨hnotin, hnd2⟩ := hnd
    by_cases hf : fkey f = k
    · have hfs : fs.filter (fun g => fkey g = k) = [] := by
        rw [List.filter_eq_nil_iff]
        intro g hg hgk
        have hgf : fkey g = fkey f := by
          rw [hf]
          simpa using hgk
        exact hnotin (hgf ▸ List.mem_map_of_mem fkey hg)
      simp [List.filter_cons, List.find?_cons, hf, hfs]
    · simp only [List.filter_cons, List.find?_cons]
      simp [hf, IH hnd2]

/-- Unfolding `leftMerge` on a nonempty left table. -/
theorem leftMerge_cons {K M F : Type} [DecidableEq K] (mkey : M → K)
    (fkey : F → K) (m : M) (ms : List M) (feats : List F) :
    leftMerge mkey fkey (m :: ms) feats
      = (match feats.filter (fun f => fkey f = mkey m) with
         | [] => [(m, none)]
         | fs => fs.map fun f => (m, some f)) ++ leftMerge mkey fkey ms feats := by
  simp [leftMerge, List.flatMap_cons]

/-- With pairwise-distinct right keys, the left merge pairs each left
row, in order, with the unique matching right record found by `find?`
(or `none` when there is none): one output row per left row. -/
theorem leftMerge_nodup_eq {K M F : Type} [DecidableEq K] (mkey : M → K)
    (fkey : F → K) (meta : List M) (feats : List F)
    (hnd : (feats.map fkey).Nodup) :
    leftMerge mkey fkey meta feats
      = meta.map fun m => (m, feats.find? (fun f => fkey f = mkey m)) := by
  induction meta with
  | nil => rfl
  | cons m ms IH =>
    rw [leftMerge_cons, IH, List.map_cons]
    rw [filter_key_eq_find_toList fkey (mkey m) feats hnd]
    cases feats.find? (fun f => fkey f = mkey m) with
    | none => rfl
    | some f => rfl

/-- The all-success trace counts one features request per batch. -/
theorem countP_request_per_batch (bs : List (List String)) :
    ((bs.flatMap fun b => [Ev.featuresCall b, Ev.sleepMs 100]).countP
      Ev.isFeaturesCall) = bs.length := by
  induction bs with
  | nil => rfl
  | cons b rest IH =>
    rw [List.flatMap_cons, List.countP_append, IH]
    simp [List.countP_cons, Ev.isFeaturesCall]
    omega

/-- The all-success trace counts one sleep per batch. -/
theorem countP_sleep_per_batch (bs : List (List String)) :
    ((bs.flatMap fun b => [Ev.featuresCall b, Ev.sleepMs 100]).countP
      Ev.isSleep) = bs.length := by
  induction bs with
  | nil => rfl
  | cons b rest IH =>
    rw [List.flatMap_cons, List.countP_append, IH]
    simp [List.countP_cons, Ev.isFeaturesCall, Ev.isSleep]
    omega

/-! ### Witness fixtures: concrete clients and rows -/

/-- A concrete feature record for the id `s`, used by witnesses. -/
def featW (s : String) : FeatRow :=
  { id := s, tempo := 0, danceability := 0 }

/-- A client whose feature endpoint always succeeds, answering one
record per requested id in request order. -/
def spAllOk : SpClient :=
  { search := fun _ => { artists := none }
    artist_top_tracks := fun _ _ => { tracks := none }
    audio_features := fun b => .ok (b.map featW) }

/-- A concrete artist object. -/
def artistW : Artist := { id := "ar1", name := "Arijit Singh" }

/-- A concrete track object. -/
def trackW : Track :=
  { name := "Tum Hi Ho", id := "t1", artists := [artistW]
    album := { name := "Aashiqui 2" }
    popularity := some 90, duration_ms := some 262000 }

/-- A client that finds the artist and a top track but whose feature
endpoint raises the service exception. -/
def spSvcFail : SpClient :=
  { search := fun _ => { artists := some { items := some [artistW] } }
    artist_top_tracks := fun _ _ => { tracks := some [trackW] }
    audio_features := fun _ => .spotifyExc }

/-- A client whose feature endpoint raises a non-service exception. -/
def spOtherFail : SpClient :=
  { search := fun _ => { artists := some { items := some [artistW] } }
    artist_top_tracks := fun _ _ => { tracks := some [trackW] }
    audio_features := fun _ => .otherExc }

/-- A client whose search yields an empty items list. -/
def spEmptySearch : SpClient :=
  { search := fun _ => { artists := some { items := some [] } }
    artist_top_tracks := fun _ _ => { tracks := some [trackW] }
    audio_features := fun b => .ok (b.map featW) }

/-- A client whose search response lacks the artists object. -/
def spNoArtistsObj : SpClient :=
  { search := fun _ => { artists := none }
    artist_top_tracks := fun _ _ => { tracks := some [trackW] }
    audio_features := fun b => .ok (b.map featW) }

/-! ### The claims -/

/-- C1: `safe_audio_features` partitions the track-id list into
contiguous groups of at most 100 (the groups concatenate back to the
input), and in a run where every request succeeds — each batch answered
with one feature record per requested id, in request order — it issues
exactly `⌈L/100⌉` enrichment requests and returns the records of all
`L` ids in input order: the result has length `L` and preserves, within
each group, the order of the requested identifiers. -/
theorem safe_audio_features_batching (sp : SpClient)
    (featOf : String → FeatRow) (track_ids : List String)
    (hapi : ∀ b, sp.audio_features b = .ok (b.map featOf)) :
    (chunked track_ids 100).flatten = track_ids
    ∧ (∀ c ∈ chunked track_ids 100, c.length ≤ 100)
    ∧ (safe_audio_features sp track_ids).1.countP Ev.isFeaturesCall
        = (track_ids.length + 99) / 100
    ∧ (safe_audio_features sp track_ids).2
        = .success (track_ids.map featOf) := by
  refine ⟨chunked_flatten 100 (by omega) track_ids,
    chunked_length_le 100 track_ids, ?_, ?_⟩
  · have htr : (safe_audio_features sp track_ids).1
        = (chunked track_ids 100).flatMap
            (fun b => [Ev.featuresCall b, Ev.sleepMs 100]) :=
      safe_audio_features_loop_ok_trace sp.audio_features
        (chunked track_ids 100) (fun b _ => ⟨b.map featOf, hapi b⟩) []
    rw [htr, countP_request_per_batch, length_chunked]
    omega
  · have hres : (safe_audio_features sp track_ids).2
        = .success ([] ++ (chunked track_ids 100).flatten.map featOf) :=
      safe_audio_features_loop_ok_result featOf sp.audio_features
        (chunked track_ids 100) (fun b _ => hapi b) []
    rw [hres, List.nil_append, chunked_flatten 100 (by omega)]

/-- Witness for the batching theorem at the input `["a", "b", "c"]`
under the all-success client. -/
theorem safe_audio_features_batching_witness :
    (chunked ["a", "b", "c"] 100).flatten = ["a", "b", "c"]
    ∧ (∀ c ∈ chunked ["a", "b", "c"] 100, c.length ≤ 100)
    ∧ (safe_audio_features spAllOk ["a", "b", "c"]).1.countP
        Ev.isFeaturesCall = (["a", "b", "c"].length + 99) / 100
    ∧ (safe_audio_features spAllOk ["a", "b", "c"]).2
        = .success (["a", "b", "c"].map featW) :=
  safe_audio_features_batching spAllOk featW ["a", "b", "c"]
    (fun _ => rfl)

/-- C2: if an executed batch request raises the service-level exception
(every batch before it succeeded), `safe_audio_features` returns the
failure signal, which is distinct from every successful result — in
particular from the empty-but-successful one — so no partial sequence
of earlier groups' records is ever returned. -/
theorem safe_audio_features_service_error_aborts (sp : SpClient)
    (track_ids : List String) (pre : List (List String)) (b : List String)
    (post : List (List String))
    (hsplit : chunked track_ids 100 = pre ++ b :: post)
    (hpre : ∀ c ∈ pre, ∃ l, sp.audio_features c = .ok l)
    (hb : sp.audio_features b = .spotifyExc) :
    (safe_audio_features sp track_ids).2 = .failure
    ∧ ∀ l, FetchResult.failure ≠ FetchResult.success l := by
  constructor
  · show (safe_audio_features_loop sp.audio_features
      (chunked track_ids 100) []).2 = .failure
    rw [hsplit]
    exact safe_audio_features_loop_service_error sp.audio_features
      pre b post hpre hb []
  · intro l hl
    cases hl

/-- Witness for the abort theorem: a single batch raising the service
exception. -/
theorem safe_audio_features_service_error_aborts_witness :
    (safe_audio_features spSvcFail ["a"]).2 = .failure
    ∧ ∀ l, FetchResult.failure ≠ FetchResult.success l :=
  safe_audio_features_service_error_aborts spSvcFail ["a"] [] ["a"] []
    (by decide) (by simp) rfl

/-- C9: only the service-level exception is converted into the failure
signal; when the first failing batch raises any other exception, the
fetch outcome is the propagated exception — neither the failure signal
nor a success — so the degrade-to-metadata-only path is not taken for
non-service errors. -/
theorem safe_audio_features_other_error_propagates (sp : SpClient)
    (track_ids : List String) (pre : List (List String)) (b : List String)
    (post : List (List String))
    (hsplit : chunked track_ids 100 = pre ++ b :: post)
    (hpre : ∀ c ∈ pre, ∃ l, sp.audio_features c = .ok l)
    (hb : sp.audio_features b = .otherExc) :
    (safe_audio_features sp track_ids).2 = .raised
    ∧ FetchResult.raised ≠ FetchResult.failure
    ∧ ∀ l, FetchResult.raised ≠ FetchResult.success l := by
  refine ⟨?_, ?_, ?_⟩
  · show (safe_audio_features_loop sp.audio_features
      (chunked track_ids 100) []).2 = .raised
    rw [hsplit]
    exact safe_audio_features_loop_other_error sp.audio_features
      pre b post hpre hb []
  · intro hl
    cases hl
  · intro l hl
    cases hl

/-- Witness for the propagation theorem: a single batch raising a
non-service exception. -/
theorem safe_audio_features_other_error_propagates_witness :
    (safe_audio_features spOtherFail ["a"]).2 = .raised
    ∧ FetchResult.raised ≠ FetchResult.failure
    ∧ ∀ l, FetchResult.raised ≠ FetchResult.success l :=
  safe_audio_features_other_error_propagates spOtherFail ["a"] [] ["a"] []
    (by decide) (by simp) rfl

/-- C8 counterexample: with 101 ids (two groups) and every request
succeeding, the run's final event is a 100ms sleep — the pause also
occurs after the final group's request — and there are two pauses, one
per group, not one between the two requests. -/
theorem sleep_after_final_batch_cex :
    (safe_audio_features spAllOk (List.replicate 101 "t")).1.getLast?
      = some (Ev.sleepMs 100)
    ∧ (safe_audio_features spAllOk (List.replicate 101 "t")).1.countP
        Ev.isSleep = 2 := by
  constructor
  · rfl
  · rfl

/-- C8 amended: in every all-success run the fixed 100ms pause occurs
after each group's request, including the final one — the trace is
exactly one features request followed by one sleep per group, so a run
with `k` groups pauses `k` times. -/
theorem sleep_after_each_batch (sp : SpClient) (track_ids : List String)
    (hapi : ∀ b ∈ chunked track_ids 100, ∃ l, sp.audio_features b = .ok l) :
    (safe_audio_features sp track_ids).1
      = (chunked track_ids 100).flatMap
          (fun b => [Ev.featuresCall b, Ev.sleepMs 100])
    ∧ (safe_audio_features sp track_ids).1.countP Ev.isSleep
        = (chunked track_ids 100).length := by
  have htr : (safe_audio_features sp track_ids).1
      = (chunked track_ids 100).flatMap
          (fun b => [Ev.featuresCall b, Ev.sleepMs 100]) :=
    safe_audio_features_loop_ok_trace sp.audio_features
      (chunked track_ids 100) hapi []
  exact ⟨htr, by rw [htr, countP_sleep_per_batch]⟩

/-- Witness for the amended pause placement at a concrete two-group
input. -/
theorem sleep_after_each_batch_witness :
    (safe_audio_features spAllOk (List.replicate 101 "t")).1
      = (chunked (List.replicate 101 "t") 100).flatMap
          (fun b => [Ev.featuresCall b, Ev.sleepMs 100])
    ∧ (safe_audio_features spAllOk (List.replicate 101 "t")).1.countP
        Ev.isSleep = (chunked (List.replicate 101 "t") 100).length :=
  sleep_after_each_batch spAllOk (List.replicate 101 "t")
    (fun b _ => ⟨b.map featW, rfl⟩)

/-- A concrete metadata row, used by the join counterexample. -/
def metaRowW : MetaRow :=
  { track_name := "Tum Hi Ho", track_id := "t1", artists := "Arijit Singh"
    album := "Aashiqui 2", popularity := some 90, duration_ms := some 262000 }

/-- A concrete feature record matching `metaRowW`'s track id. -/
def featRowW : FeatRow := { id := "t1", tempo := 94, danceability := 1 }

/-- C3 counterexample: one metadata row and a feature sequence of two
records carrying its track id (the feature ids cover a subset of the
metadata ids, but with a duplicate): the left join returns two rows,
not the claimed one row per metadata row. -/
theorem assemble_duplicate_id_cex :
    (∀ f ∈ [featRowW, featRowW], f.id ∈ [metaRowW].map MetaRow.track_id)
    ∧ (assemble [metaRowW] [featRowW, featRowW]).length = 2
    ∧ ¬(assemble [metaRowW] [featRowW, featRowW]).length
        = ([metaRowW] : List MetaRow).length := by
  refine ⟨by decide, rfl, by decide⟩

/-- C3 amended: for a metadata table of `N` rows and a feature sequence
with pairwise-distinct ids covering a subset of the metadata track ids,
the left outer join on track id returns exactly `N` rows — each
metadata row paired, in order, with the unique feature record of its
track id, or with null feature fields (`none`) when no record matches;
matched rows carry the whole feature record. -/
theorem assemble_left_join (meta : List MetaRow) (feats : List FeatRow)
    (_hsub : ∀ f ∈ feats, f.id ∈ meta.map MetaRow.track_id)
    (hnd : (feats.map FeatRow.id).Nodup) :
    (assemble meta feats).length = meta.length
    ∧ assemble meta feats
        = meta.map (fun m => (m, feats.find? (fun f => f.id = m.track_id)))
    ∧ (∀ m ∈ meta, (∀ f ∈ feats, f.id ≠ m.track_id)
        → (m, (none : Option FeatRow)) ∈ assemble meta feats)
    ∧ (∀ m ∈ meta, ∀ f ∈ feats, f.id = m.track_id
        → (m, some f) ∈ assemble meta feats) := by
  have he : assemble meta feats
      = meta.map (fun m => (m, feats.find? (fun f => f.id = m.track_id))) :=
    leftMerge_nodup_eq MetaRow.track_id FeatRow.id meta feats hnd
  refine ⟨by rw [he, List.length_map], he, ?_, ?_⟩
  · intro m hm hnone
    have hfind : feats.find? (fun f => f.id = m.track_id) = none := by
      rw [List.find?_eq_none]
      intro f hf
      simpa using hnone f hf
    rw [he]
    simpa [hfind] using
      List.mem_map_of_mem
        (fun m2 => (m2, feats.find? (fun f => f.id = m2.track_id))) hm
  · intro m hm f hf hid
    have hmemf : f ∈ feats.filter (fun g => g.id = m.track_id) :=
      List.mem_filter.mpr ⟨hf, by simp [hid]⟩
    rw [filter_key_eq_find_toList FeatRow.id m.track_id feats hnd] at hmemf
    have hfind : feats.find? (fun g => g.id = m.track_id) = some f := by
      cases hcase : feats.find? (fun g => g.id = m.track_id) with
      | none =>
        rw [hcase] at hmemf
        simp at hmemf
      | some g =>
        rw [hcase] at hmemf
        simp at hmemf
        rw [hmemf]
    rw [he]
    simpa [hfind] using
      List.mem_map_of_mem
        (fun m2 => (m2, feats.find? (fun f2 => f2.id = m2.track_id))) hm

/-- Witness for the amended join theorem at a one-row table with one
matching feature record. -/
theorem assemble_left_join_witness :
    (assemble [metaRowW] [featRowW]).length = ([metaRowW] : List MetaRow).length
    ∧ assemble [metaRowW] [featRowW]
        = [metaRowW].map
            (fun m => (m, [featRowW].find? (fun f => f.id = m.track_id)))
    ∧ (∀ m ∈ [metaRowW], (∀ f ∈ [featRowW], f.id ≠ m.track_id)
        → (m, (none : Option FeatRow)) ∈ assemble [metaRowW] [featRowW])
    ∧ (∀ m ∈ [metaRowW], ∀ f ∈ [featRowW], f.id = m.track_id
        → (m, some f) ∈ assemble [metaRowW] [featRowW]) :=
  assemble_left_join [metaRowW] [featRowW] (by decide) (by decide)

/-- C4: whenever the feature fetch returns the failure signal,
`analyze_artist` returns the metadata table itself — the rows built
from the top tracks, unmodified and in order, under the `metaOnly`
shape that attaches no feature columns. -/
theorem analyze_artist_metadata_fallback (sp : SpClient)
    (artist_name market : String) (a : Artist)
    (ha : search_artist sp artist_name = some a)
    (hne : artist_top_tracks_in_market sp a.id market ≠ [])
    (hfail : (safe_audio_features sp
        ((artist_top_tracks_in_market sp a.id market).map Track.id)).2
      = .failure) :
    (analyze_artist sp artist_name market).2
      = .metaOnly
          ((artist_top_tracks_in_market sp a.id market).map trackToMeta) := by
  have hie : (artist_top_tracks_in_market sp a.id market).isEmpty = false := by
    simp [List.isEmpty_iff, hne]
  simp only [analyze_artist, ha, hie, Bool.false_eq_true, if_false, hfail]

/-- Witness for the metadata fallback at a concrete client whose
feature endpoint raises the service exception. -/
theorem analyze_artist_metadata_fallback_witness :
    (analyze_artist spSvcFail "Arijit Singh" "IN").2
      = .metaOnly
          ((artist_top_tracks_in_market spSvcFail artistW.id "IN").map
            trackToMeta) :=
  analyze_artist_metadata_fallback spSvcFail "Arijit Singh" "IN" artistW
    rfl (by decide) rfl

/-- C5: when the search yields zero items, `search_artist` returns the
not-found signal, and `analyze_artist`'s whole trace is the single
search call — no top-tracks request, no features request — with no
table produced (`noData`). -/
theorem analyze_artist_not_found (sp : SpClient)
    (artist_name market : String)
    (h : ((sp.search ("artist:" ++ artist_name)).artists.getD
        { items := none }).items.getD [] = []) :
    search_artist sp artist_name = none
    ∧ (analyze_artist sp artist_name market).1
        = [Ev.searchCall ("artist:" ++ artist_name)]
    ∧ (analyze_artist sp artist_name market).2 = .noData := by
  have hs : search_artist sp artist_name = none := by
    simp only [search_artist]
    rw [h]
  exact ⟨hs, by simp only [analyze_artist, hs], by simp only [analyze_artist, hs]⟩

/-- Witness for the not-found short-circuit at a client whose search
returns an empty items list. -/
theorem analyze_artist_not_found_witness :
    search_artist spEmptySearch "Nobody" = none
    ∧ (analyze_artist spEmptySearch "Nobody" "IN").1
        = [Ev.searchCall ("artist:" ++ "Nobody")]
    ∧ (analyze_artist spEmptySearch "Nobody" "IN").2 = .noData :=
  analyze_artist_not_found spEmptySearch "Nobody" "IN" rfl

/-- C6: on a playlist whose pages form a finite chain — every page but
the last carrying a next-page cursor, the last carrying none —
`get_playlist_tracks` returns the concatenation, in page order, of
every page's item list, for any iteration bound covering the chain. -/
theorem get_playlist_tracks_depaginates {I : Type}
    (nextFn : String → Page I) (p0 : Page I) (ps : List (Page I))
    (fuel : Nat) (hchain : PageChain nextFn p0 ps)
    (hfuel : ps.length ≤ fuel) :
    get_playlist_tracks p0 nextFn fuel = (ps.map Page.items).flatten := by
  obtain ⟨t, ht⟩ := pageChain_head hchain
  rw [get_playlist_tracks,
    get_playlist_tracks_loop_chain nextFn hchain fuel p0.items
      (le_trans hfuel (Nat.le_succ _))]
  subst ht
  simp

/-- The last page of the witness chain. -/
def pageB : Page Nat := { items := [3], next := none }

/-- The first page of the witness chain, cursor pointing at `pageB`. -/
def pageA : Page Nat := { items := [1, 2], next := some "c1" }

/-- The witness cursor resolver. -/
def nextFnW : String → Page Nat := fun _ => pageB

/-- Witness for de-pagination on a concrete two-page chain. -/
theorem get_playlist_tracks_depaginates_witness :
    get_playlist_tracks pageA nextFnW 2 = [1, 2, 3] := by
  rw [get_playlist_tracks_depaginates nextFnW pageA [pageA, pageB] 2
    (PageChain.step pageA "c1" [pageB] rfl (PageChain.last pageB rfl))
    (by decide)]
  rfl

/-- C7: whenever `analyze_artist` produces no table — the artist is not
found, or the artist is found but its top-tracks list is empty — the
entry point terminates with exit status 1 (non-zero) and the error
message `"No data returned."`, and its outcome is not the plot. -/
theorem main_exits_without_table (sp : SpClient)
    (artist_name market : String)
    (h : search_artist sp artist_name = none
      ∨ ∃ a, search_artist sp artist_name = some a
          ∧ artist_top_tracks_in_market sp a.id market = []) :
    (analyze_artist sp artist_name market).2 = .noData
    ∧ main_run (analyze_artist sp artist_name market).2
        = .exitError 1 "No data returned."
    ∧ (1 : Nat) ≠ 0
    ∧ ∀ c m, MainOutcome.exitError c m ≠ .plotted := by
  have hnd : (analyze_artist sp artist_name market).2 = .noData := by
    rcases h with hs | ⟨a, hs, ht⟩
    · simp only [analyze_artist, hs]
    · simp only [analyze_artist, hs, ht]
      simp
  refine ⟨hnd, by rw [hnd]; rfl, by decide, ?_⟩
  intro c m hcm
  cases hcm

/-- Witness for the terminal exit at a client with zero search hits. -/
theorem main_exits_without_table_witness :
    (analyze_artist spEmptySearch "Nobody" "IN").2 = .noData
    ∧ main_run (analyze_artist spEmptySearch "Nobody" "IN").2
        = .exitError 1 "No data returned."
    ∧ (1 : Nat) ≠ 0
    ∧ ∀ c m, MainOutcome.exitError c m ≠ .plotted :=
  main_exits_without_table spEmptySearch "Nobody" "IN" (Or.inl rfl)

/-- C10: `search_artist` is total on every search response and returns
the not-found signal rather than raising when the response lacks the
`"artists"` object, when that object lacks the `"items"` list, and when
the items list is empty. -/
theorem search_artist_none_on_missing_structure (sp : SpClient)
    (artist_name : String)
    (h : (sp.search ("artist:" ++ artist_name)).artists = none
      ∨ ∃ o, (sp.search ("artist:" ++ artist_name)).artists = some o
          ∧ (o.items = none ∨ o.items = some [])) :
    search_artist sp artist_name = none := by
  simp only [search_artist]
  rcases h with h | ⟨o, ho, h | h⟩
  · rw [h]
    rfl
  · rw [ho, Option.getD_some, h]
    rfl
  · rw [ho, Option.getD_some, h]
    rfl

/-- Witness for the missing-structure fallback at a client whose
response has no artists object. -/
theorem search_artist_none_on_missing_structure_witness :
    search_artist spNoArtistsObj "Nobody" = none :=
  search_artist_none_on_missing_structure spNoArtistsObj "Nobody"
    (Or.inl rfl)

end SpotifyIndiaAnalysis
